import Mathlib

/-!
Shallow embedding of the country-identity resolution and data-merge pipeline
of the maps.az repository (`generate_choropleth.py`,
`data_processing/compute_track_per_capita.py`,
`data_processing/compute_track_per_area.py`).

Strings are modelled as their character lists (`String.data`); Python string
primitives (`str.strip`, `str.lower`, `re.sub`, `float`, …) are embedded as
executable functions on `List Char`, restricted to the ASCII behaviour the
pipeline relies on.  Python floats are modelled as rationals (`ℚ`): every
numeric literal the claims mention is exactly representable, so no rounding
behaviour is lost.
-/

namespace MapsAz

/-- Python `\s` / `str.strip` whitespace, ASCII range: space, TAB, LF, VT, FF, CR. -/
def wsChar (c : Char) : Bool :=
  c.toNat = 32 || c.toNat = 9 || c.toNat = 10 || c.toNat = 11 || c.toNat = 12 || c.toNat = 13

/-- ASCII lowercase letter `a`-`z`. -/
def lowerAlpha (c : Char) : Bool := 97 ≤ c.toNat && c.toNat ≤ 122

/-- ASCII uppercase letter `A`-`Z`. -/
def upperAlpha (c : Char) : Bool := 65 ≤ c.toNat && c.toNat ≤ 90

/-- ASCII letter (model of Python `str.isalpha` per character). -/
def alphaChar (c : Char) : Bool := upperAlpha c || lowerAlpha c

/-- ASCII digit `0`-`9`. -/
def digitChar (c : Char) : Bool := 48 ≤ c.toNat && c.toNat ≤ 57

/-- Model of Python `str.lower` on one ASCII character. -/
def pyLowerChar (c : Char) : Char :=
  if upperAlpha c then Char.ofNat (c.toNat + 32) else c

/-- Model of Python `str.upper` on one ASCII character. -/
def pyUpperChar (c : Char) : Char :=
  if lowerAlpha c then Char.ofNat (c.toNat - 32) else c

/-- Model of Python `str.strip`: drop trailing, then leading whitespace
(the order is irrelevant to the result). -/
def pyStrip (l : List Char) : List Char :=
  ((l.reverse.dropWhile wsChar).reverse).dropWhile wsChar

/-- Model of `re.sub(p+, r, ·)` for a single-character class `p` and a
single-character replacement `r`: every maximal run of characters satisfying
`p` is replaced by the single character `r`.  The boolean flag records whether
the previous character was part of a run being replaced. -/
def subRuns (p : Char → Bool) (r : Char) : Bool → List Char → List Char
  | _, [] => []
  | inRun, c :: cs =>
    if p c then
      if inRun then subRuns p r true cs
      else r :: subRuns p r true cs
    else c :: subRuns p r false cs

/-- The characters removed by `re.sub(r"[\'\"\,\.]", "", s)` in `norm_name`. -/
def punctChar (c : Char) : Bool :=
  c.toNat = 39 || c.toNat = 34 || c.toNat = 44 || c.toNat = 46

/-- A character kept verbatim by `re.sub(r"[^a-z0-9 ]+", " ", s)`:
lowercase letter, digit, or space. -/
def keepChar (c : Char) : Bool := lowerAlpha c || digitChar c || c.toNat = 32

/-- `norm_name` from `compute_track_per_capita.py` / `compute_track_per_area.py`
on character lists:
strip; lowercase; delete quote/comma/period; replace every run of characters
outside `[a-z0-9 ]` by one space; collapse whitespace runs to one space; strip. -/
def normNameL (l : List Char) : List Char :=
  pyStrip (subRuns wsChar ' ' false
    (subRuns (fun c => !keepChar c) ' ' false
      (((pyStrip l).map pyLowerChar).filter (fun c => !punctChar c))))

/-- `norm_name` on `String`. -/
def norm_name (s : String) : String := ⟨normNameL s.data⟩

/-! ### `choose_iso_column` (`generate_choropleth.py`)

The Natural Earth geometry frame is modelled as the ordered list of its
columns, each column a name paired with its (non-null) sample values.
-/

/-- Python string comparison (`<` on `str`): code-point lexicographic order. -/
def pyStrLt : List Char → List Char → Bool
  | [], [] => false
  | [], _ :: _ => true
  | _ :: _, [] => false
  | a :: as, b :: bs =>
    if a.toNat < b.toNat then true
    else if b.toNat < a.toNat then false
    else pyStrLt as bs

/-- Python `str.isalpha`: non-empty and every character alphabetic (ASCII model). -/
def pyIsAlpha (l : List Char) : Bool := !l.isEmpty && l.all alphaChar

/-- Python `str.lower` on a whole string. -/
def pyLowerStr (s : String) : String := ⟨s.data.map pyLowerChar⟩

/-- Python `str.upper` on a whole string. -/
def pyUpperStr (s : String) : String := ⟨s.data.map pyUpperChar⟩

/-- `score_col` inside `choose_iso_column`: strip each sample value, keep those of
length 3, keep the alphabetic ones, drop the sentinels `-99` / `0`, and count. -/
def score_col (vals : List String) : Nat :=
  let vals' := vals.map (fun v => pyStrip v.data)
  let good1 := vals'.filter (fun v => v.length == 3)
  let good2 := good1.filter (fun v => pyIsAlpha v)
  let good3 := good2.filter (fun v => !(decide (v = "-99".data ∨ v = "0".data)))
  good3.length

/-- The candidate columns of `choose_iso_column`: columns whose lowercased name is
ISO-like; if none, columns whose uppercased name is an uppercase ISO-like variant. -/
def candidatesOf (gdf : List (String × List String)) : List (String × List String) :=
  let cands := gdf.filter (fun c => ["iso_a3", "iso3", "iso", "adm0_a3"].contains (pyLowerStr c.1))
  if cands.isEmpty then
    gdf.filter (fun c => ["ISO_A3", "ADM0_A3", "ISO3"].contains (pyUpperStr c.1))
  else cands

/-- Python comparison `a > b` on `(int, str)` pairs: compare the score first,
then the column name in code-point order. -/
def tupleGt (a b : Nat × String) : Bool :=
  decide (b.1 < a.1) || (decide (a.1 = b.1) && pyStrLt b.2.data a.2.data)

/-- `scored.sort(reverse=True); scored[0]`: a stable descending sort followed by
taking the head yields the first maximal element in the tuple order, which this
fold computes directly. -/
def pickBest (best : Nat × String) : List (Nat × String) → Nat × String
  | [] => best
  | x :: xs => pickBest (if tupleGt x best then x else best) xs

/-- `choose_iso_column` from `generate_choropleth.py`. -/
def choose_iso_column (gdf : List (String × List String)) : Option String :=
  match candidatesOf gdf with
  | [] => none
  | c :: cs =>
    let best := pickBest (score_col c.2, c.1) (cs.map (fun col => (score_col col.2, col.1)))
    if best.1 = 0 then none else some best.2

/-! ### Name-based identity resolution (`compute_track_per_capita.py` lines
85-98, `compute_track_per_area.py` lines 108-119)

Python dicts are modelled as association lists in insertion order; `dict`
lookup is `find?` on the key, and "first match in iteration order" is `find?`
on the predicate.
-/

/-- Association-list lookup, modelling `d[k]` / `k in d` on a Python dict. -/
def lookupA {α : Type} (m : List (String × α)) (k : String) : Option α :=
  (m.find? (fun kv => kv.1 == k)).map (fun kv => kv.2)

/-- `isPrefixL a b`: `a` is a prefix of `b`. -/
def isPrefixL : List Char → List Char → Bool
  | [], _ => true
  | _ :: _, [] => false
  | a :: as, b :: bs => a == b && isPrefixL as bs

/-- `isSubL a b`: `a` occurs as a contiguous sublist of `b`. -/
def isSubL (a : List Char) : List Char → Bool
  | [] => a.isEmpty
  | c :: cs => isPrefixL a (c :: cs) || isSubL a cs

/-- Python `a in b` on strings: `a` is a contiguous substring of `b`. -/
def pyInStr (a b : String) : Bool := isSubL a.data b.data

/-- The layered name lookup of both track pipelines: exact normalized-name hit
in the reference map; else the alias table (only used when the aliased key is
itself in the reference map); else the first reference key, in iteration order,
that contains the name or is contained in it. -/
def resolveName {α : Type} (refMap : List (String × α))
    (aliasT : List (String × String)) (n : String) : Option α :=
  match lookupA refMap n with
  | some v => some v
  | none =>
    match
      (match lookupA aliasT n with
       | some a => lookupA refMap a
       | none => none) with
    | some v => some v
    | none =>
      (refMap.find? (fun kv => pyInStr n kv.1 || pyInStr kv.1 n)).map (fun kv => kv.2)

/-- The manual alias table of `compute_track_per_capita.py`. -/
def aliasCapita : List (String × String) :=
  [("congo", "republic of the congo"), ("dr congo", "dr congo"),
   ("ivory coast", "ivory coast"), ("south korea", "south korea"),
   ("north korea", "north korea"), ("united states", "united states")]

/-- The manual alias table of `compute_track_per_area.py`. -/
def aliasArea : List (String × String) :=
  [("congo", "republic of the congo"), ("dr congo", "dr congo"),
   ("ivory coast", "ivory coast"), ("united states", "united states")]

/-! ### ISO-code canonicalization (`_clean_iso_code`, `numeric_to_alpha3`) -/

/-- `_clean_iso_code` from `generate_choropleth.py`, parametrized by the
external alpha-2 → alpha-3 registry (`pycountry.countries.get(alpha_2=...)`):
strip; a 3-letter alphabetic code is uppercased and returned directly; a
2-character code is uppercased and looked up in the registry; anything else is
`none`. -/
def clean_iso_code (reg2 : List (String × String)) (code : String) : Option String :=
  let s := pyStrip code.data
  if s.length = 3 && pyIsAlpha s then some ⟨s.map pyUpperChar⟩
  else if s.length = 2 then lookupA reg2 ⟨s.map pyUpperChar⟩
  else none

/-- Python `str.zfill(3)` on a sign-less digit string: left-pad with zeros. -/
def zfill3 (l : List Char) : List Char :=
  if l.length < 3 then List.replicate (3 - l.length) '0' ++ l else l

/-- `numeric_to_alpha3` from both track pipelines, parametrized by the external
numeric → alpha-3 registry (`pycountry.countries.get(numeric=...)`): empty
input gives `""`; otherwise non-digits are removed, the rest zero-padded to 3
digits and looked up exactly; a failed lookup gives `""`. -/
def numeric_to_alpha3 (regN : List (String × String)) (numeric_code : String) : String :=
  if numeric_code.data.isEmpty then ""
  else ((lookupA regN ⟨zfill3 (numeric_code.data.filter digitChar)⟩).getD "")

/-- Modelled from the spec: a fragment of the external ISO 3166-1
numeric → alpha-3 registry shipped with `pycountry` (an external collaborator,
not part of this repository), restricted to the entries the spec names plus a
neighbour used by the pipeline examples. -/
def isoNumericRegistry : List (String × String) :=
  [("008", "ALB"), ("084", "BLZ"), ("250", "FRA"), ("380", "ITA")]

/-! ### Numeric parsing (`float`, `pd.to_numeric`, `parse_area`) -/

/-- The numeric value of a digit string, most significant digit first. -/
def natOfDigits (l : List Char) : Nat :=
  l.foldl (fun acc c => 10 * acc + (c.toNat - 48)) 0

/-- Split a character list at every `.`. -/
def splitDot : List Char → List (List Char)
  | [] => [[]]
  | c :: cs =>
    let r := splitDot cs
    if c = '.' then [] :: r
    else
      match r with
      | [] => [[c]]
      | h :: t => (c :: h) :: t

/-- Python `float()` restricted to unsigned numerals: the string must consist of
digits and at most one dot, with at least one digit (`"12"`, `"12.5"`, `".5"`,
`"12."` parse; `""`, `"."`, `"1.2.3"`, `"abc"` raise, i.e. give `none`). -/
def pyFloatDigits (l : List Char) : Option ℚ :=
  if !(l.all (fun c => digitChar c || c = '.')) then none
  else
    match splitDot l with
    | [i] => if i.isEmpty then none else some (natOfDigits i : ℚ)
    | [i, f] =>
      if i.isEmpty && f.isEmpty then none
      else some ((natOfDigits i : ℚ) + (natOfDigits f : ℚ) / (10 : ℚ) ^ f.length)
    | _ => none

/-- The track-length cell parser shared by both track pipelines
(`float(re.sub(r"[^0-9.]", "", track_raw))` under `try`, with `track = 0.0` on
failure). -/
def parseTrack (raw : String) : ℚ :=
  (pyFloatDigits (raw.data.filter (fun c => digitChar c || c = '.'))).getD 0

/-- `pd.to_numeric(errors="coerce")` on one cell (`generate_choropleth.py` line
132), modelled for optionally signed decimal numerals surrounded by whitespace;
every other cell coerces to missing (`none`), never to a number. -/
def coerceNumeric (s : String) : Option ℚ :=
  match pyStrip s.data with
  | [] => pyFloatDigits []
  | c :: rest =>
    if c = '-' then (pyFloatDigits rest).map (fun q => -q)
    else if c = '+' then pyFloatDigits rest
    else pyFloatDigits (c :: rest)

/-- The `\s*([kKmM]?)$` tail of the `parse_area` regex: optional whitespace,
then an optional thousand/million multiplier. -/
def suffixMult (l : List Char) : Option ℚ :=
  match l.dropWhile wsChar with
  | [] => some 1
  | [c] =>
    if c = 'k' || c = 'K' then some 1000
    else if c = 'm' || c = 'M' then some 1000000
    else none
  | _ => none

/-- The regex match `^([0-9]*\.?[0-9]+)\s*([kKmM]?)$` of `parse_area`, returning
the number already scaled by the suffix multiplier. -/
def matchNumSuffix (l : List Char) : Option ℚ :=
  let d1 := l.takeWhile digitChar
  let r1 := l.dropWhile digitChar
  if r1.head? = some '.' then
    let r2 := r1.tail
    let d2 := r2.takeWhile digitChar
    let r3 := r2.dropWhile digitChar
    if d2.isEmpty then none
    else
      (suffixMult r3).map
        (fun m => ((natOfDigits d1 : ℚ) + (natOfDigits d2 : ℚ) / (10 : ℚ) ^ d2.length) * m)
  else
    if d1.isEmpty then none
    else (suffixMult r1).map (fun m => (natOfDigits d1 : ℚ) * m)

/-- `parse_area` from `compute_track_per_area.py`: `None`/empty/`nan` give
missing; separators (thin spaces, commas) are removed and a leading `<` is
dropped; then the `K`/`M`-suffixed numeral regex is tried, and on failure all
non-digit/non-dot characters are stripped and the rest parsed as a float, with
missing on an empty or unparseable remainder. -/
def parse_area (area_raw : Option String) : Option ℚ :=
  match area_raw with
  | none => none
  | some raw =>
    let s := pyStrip raw.data
    if s.isEmpty || decide ((⟨s.map pyLowerChar⟩ : String) = "nan") then none
    else
      let s1 := s.filter (fun c => !(c = ' ' || c = ',' || c = ' '))
      let s2 := pyStrip (s1.filter (fun c => !(c = '<')))
      match matchNumSuffix s2 with
      | some q => some q
      | none =>
        let digits := s2.filter (fun c => digitChar c || c = '.')
        if digits.isEmpty then none else pyFloatDigits digits

/-! ### The merge (`generate_choropleth.py` line 337) -/

/-- `world.merge(df, how="left", on="iso_a3")`: each geometry key, in order,
paired with every matching metric row, or with `none` when no metric row
matches its code. -/
def mergeLeft {α : Type} (world : List String) (df : List (String × α)) :
    List (String × Option α) :=
  world.flatMap (fun iso =>
    match df.filter (fun kv => kv.1 == iso) with
    | [] => [(iso, none)]
    | ms => ms.map (fun kv => (iso, some kv.2)))

/-! ### The per-row track pipelines -/

/-- One row of the per-capita loop (`compute_track_per_capita.py` lines 71-106):
fields are stripped, the track length parsed, the population resolved by
normalized name; a missing or zero population sends the raw country name to the
unmatched diagnostics (`Sum.inl`); otherwise the row is emitted with value
`(track / pop) * SCALE` (`SCALE = 1000`) and with the registry alpha-3 code, or
the raw ISO field when the registry lookup returns `""`. -/
def processRowCapita (popMap : List (String × ℚ)) (aliasT : List (String × String))
    (regN : List (String × String)) (row : String × String × String) :
    Sum String (String × String × ℚ) :=
  let country_raw : String := ⟨pyStrip row.1.data⟩
  let iso_raw : String := ⟨pyStrip row.2.1.data⟩
  let track := parseTrack ⟨pyStrip row.2.2.data⟩
  match resolveName popMap aliasT (norm_name country_raw) with
  | none => Sum.inl country_raw
  | some p =>
    if p = 0 then Sum.inl country_raw
    else
      let iso3 := numeric_to_alpha3 regN iso_raw
      Sum.inr (country_raw, (if iso3 ≠ "" then iso3 else iso_raw), track / p * 1000)

/-- One row of the per-area loop (`compute_track_per_area.py` lines 93-129):
as `processRowCapita` but the divisor is the country area and no scale factor
is applied. -/
def processRowArea (areaMap : List (String × ℚ)) (aliasT : List (String × String))
    (regN : List (String × String)) (row : String × String × String) :
    Sum String (String × String × ℚ) :=
  let country_raw : String := ⟨pyStrip row.1.data⟩
  let iso_raw : String := ⟨pyStrip row.2.1.data⟩
  let track := parseTrack ⟨pyStrip row.2.2.data⟩
  match resolveName areaMap aliasT (norm_name country_raw) with
  | none => Sum.inl country_raw
  | some a =>
    if a = 0 then Sum.inl country_raw
    else
      let iso3 := numeric_to_alpha3 regN iso_raw
      Sum.inr (country_raw, (if iso3 ≠ "" then iso3 else iso_raw), track / a)

/-- The whole per-capita loop: output rows and unmatched diagnostics, both in
input order. -/
def runCapita (popMap : List (String × ℚ)) (aliasT : List (String × String))
    (regN : List (String × String)) (rows : List (String × String × String)) :
    List (String × String × ℚ) × List String :=
  rows.foldr
    (fun r acc =>
      match processRowCapita popMap aliasT regN r with
      | Sum.inl u => (acc.1, u :: acc.2)
      | Sum.inr o => (o :: acc.1, acc.2))
    ([], [])

/-- The whole per-area loop: output rows and unmatched diagnostics, both in
input order. -/
def runArea (areaMap : List (String × ℚ)) (aliasT : List (String × String))
    (regN : List (String × String)) (rows : List (String × String × String)) :
    List (String × String × ℚ) × List String :=
  rows.foldr
    (fun r acc =>
      match processRowArea areaMap aliasT regN r with
      | Sum.inl u => (acc.1, u :: acc.2)
      | Sum.inr o => (o :: acc.1, acc.2))
    ([], [])

/-! ### Generic lemmas about `subRuns` and `pyStrip` -/

theorem subRuns_eq_self {p : Char → Bool} {r : Char} (l : List Char) :
    (∀ c ∈ l, p c = false) → ∀ b, subRuns p r b l = l := by
  induction l with
  | nil => intro _ b; rfl
  | cons c cs ih =>
    intro h b
    have hc : p c = false := h c (by simp)
    have ht := ih (fun x hx => h x (by simp [hx])) false
    simp [subRuns, hc, ht]

theorem mem_subRuns {p : Char → Bool} {r : Char} (l : List Char) :
    ∀ b c, c ∈ subRuns p r b l → c = r ∨ (c ∈ l ∧ p c = false) := by
  induction l with
  | nil => intro b c h; simp [subRuns] at h
  | cons a as ih =>
    intro b c h
    by_cases ha : p a
    · cases b with
      | false =>
        rw [show subRuns p r false (a :: as) = r :: subRuns p r true as from by
          simp [subRuns, ha]] at h
        rcases List.mem_cons.mp h with h | h
        · exact Or.inl h
        · rcases ih true c h with h' | ⟨h1, h2⟩
          · exact Or.inl h'
          · exact Or.inr ⟨List.mem_cons_of_mem _ h1, h2⟩
      | true =>
        rw [show subRuns p r true (a :: as) = subRuns p r true as from by
          simp [subRuns, ha]] at h
        rcases ih true c h with h' | ⟨h1, h2⟩
        · exact Or.inl h'
        · exact Or.inr ⟨List.mem_cons_of_mem _ h1, h2⟩
    · have ha' : p a = false := by simpa using ha
      rw [show subRuns p r b (a :: as) = a :: subRuns p r false as from by
        simp [subRuns, ha']] at h
      rcases List.mem_cons.mp h with h | h
      · exact Or.inr ⟨by simp [h], h ▸ ha'⟩
      · rcases ih false c h with h' | ⟨h1, h2⟩
        · exact Or.inl h'
        · exact Or.inr ⟨List.mem_cons_of_mem _ h1, h2⟩

theorem head?_subRuns_true {p : Char → Bool} {r : Char} (l : List Char) :
    ∀ c, (subRuns p r true l).head? = some c → p c = false := by
  induction l with
  | nil => intro c h; simp [subRuns] at h
  | cons a as ih =>
    intro c h
    by_cases ha : p a
    · simp only [subRuns, ha, if_true] at h
      exact ih c h
    · have ha' : p a = false := by simpa using ha
      simp only [subRuns, ha', Bool.false_eq_true, if_false, List.head?_cons,
        Option.some_inj] at h
      exact h ▸ ha'

theorem chain'_subRuns {p : Char → Bool} {r : Char} (hr : p r = true) (l : List Char) :
    ∀ b, List.Chain' (fun a b => ¬(a = r ∧ b = r)) (subRuns p r b l) := by
  induction l with
  | nil => intro b; simp [subRuns]
  | cons a as ih =>
    intro b
    by_cases ha : p a
    · cases b with
      | false =>
        have hgoal : subRuns p r false (a :: as) = r :: subRuns p r true as := by
          simp [subRuns, ha]
        rw [hgoal, List.chain'_cons']
        refine ⟨fun y hy hcon => ?_, ih true⟩
        have hy' : p y = false := head?_subRuns_true as y hy
        rw [hcon.2, hr] at hy'
        exact Bool.noConfusion hy'
      | true =>
        have hgoal : subRuns p r true (a :: as) = subRuns p r true as := by
          simp [subRuns, ha]
        rw [hgoal]
        exact ih true
    · have ha' : p a = false := by simpa using ha
      have hgoal : subRuns p r b (a :: as) = a :: subRuns p r false as := by
        simp [subRuns, ha']
      rw [hgoal, List.chain'_cons']
      refine ⟨fun y hy hcon => ?_, ih false⟩
      rw [hcon.1, hr] at ha'
      exact Bool.noConfusion ha'

theorem subRuns_true_eq_false_of_head {p : Char → Bool} {r : Char} :
    ∀ (l : List Char), (∀ c ∈ l.head?, p c = false) →
      subRuns p r true l = subRuns p r false l
  | [], _ => rfl
  | a :: as, h => by
    have ha : p a = false := h a (by simp)
    simp [subRuns, ha]

theorem subRuns_eq_self_of_chain {p : Char → Bool} {r : Char} (l : List Char)
    (hws : ∀ c ∈ l, p c = true → c = r)
    (hch : List.Chain' (fun a b => ¬(a = r ∧ b = r)) l) :
    subRuns p r false l = l := by
  induction l with
  | nil => rfl
  | cons a as ih =>
    have htail : subRuns p r false as = as :=
      ih (fun c hc => hws c (List.mem_cons_of_mem _ hc)) (List.chain'_cons'.mp hch).2
    by_cases ha : p a
    · have har : a = r := hws a (by simp) ha
      have hhead : ∀ c ∈ as.head?, p c = false := by
        intro c hc
        have hne : ¬(a = r ∧ c = r) := (List.chain'_cons'.mp hch).1 c hc
        by_contra hpc
        have hcr : c = r :=
          hws c (List.mem_cons_of_mem a (List.mem_of_mem_head? hc)) (by simpa using hpc)
        exact hne ⟨har, hcr⟩
      have hgoal : subRuns p r false (a :: as) = r :: subRuns p r true as := by
        simp [subRuns, ha]
      rw [hgoal, subRuns_true_eq_false_of_head as hhead, htail, har]
    · have ha' : p a = false := by simpa using ha
      simp [subRuns, ha', htail]

/-- Characters of `pyStrip l` are characters of `l`. -/
theorem pyStrip_within (l : List Char) : pyStrip l <:+: l := by
  unfold pyStrip
  have h1 : (l.reverse.dropWhile wsChar).reverse <+: l := by
    rw [← List.reverse_suffix]
    simpa using List.dropWhile_suffix (l := l.reverse) wsChar
  exact List.IsInfix.trans
    (List.IsSuffix.isInfix (List.dropWhile_suffix wsChar)) (List.IsPrefix.isInfix h1)

theorem head?_dropWhile {p : Char → Bool} :
    ∀ (l : List Char), ∀ c ∈ (l.dropWhile p).head?, p c = false := by
  intro l
  induction l with
  | nil => intro c h; simp [List.dropWhile] at h
  | cons a as ih =>
    intro c h
    by_cases ha : p a
    · rw [List.dropWhile_cons_of_pos ha] at h
      exact ih c h
    · have ha' : p a = false := by simpa using ha
      rw [List.dropWhile_cons_of_neg ha] at h
      simp only [List.head?_cons, Option.mem_def, Option.some_inj] at h
      exact h ▸ ha'

theorem dropWhile_eq_self_of_head? {p : Char → Bool} :
    ∀ (l : List Char), (∀ c ∈ l.head?, p c = false) → l.dropWhile p = l
  | [], _ => rfl
  | a :: as, h => by
    have ha : p a = false := h a (by simp)
    simp [List.dropWhile_cons, ha]

theorem head?_pyStrip (l : List Char) : ∀ c ∈ (pyStrip l).head?, wsChar c = false := by
  unfold pyStrip
  exact head?_dropWhile _

theorem getLast?_pyStrip (l : List Char) :
    ∀ c ∈ (pyStrip l).getLast?, wsChar c = false := by
  intro c hc
  unfold pyStrip at hc
  set m : List Char := (l.reverse.dropWhile wsChar).reverse with hm
  have hsuffix : m.dropWhile wsChar <:+ m := List.dropWhile_suffix wsChar
  obtain ⟨t, ht⟩ := hsuffix
  have hne : m.dropWhile wsChar ≠ [] := by
    intro hnil
    rw [hnil] at hc
    simp at hc
  have hlast : m.getLast? = some c := by
    rw [← ht, List.getLast?_append_of_ne_nil t hne]
    exact hc
  have : (l.reverse.dropWhile wsChar).head? = some c := by
    rw [hm, List.getLast?_reverse] at hlast
    exact hlast
  exact head?_dropWhile _ c this

theorem pyStrip_eq_self (l : List Char)
    (h1 : ∀ c ∈ l.head?, wsChar c = false)
    (h2 : ∀ c ∈ l.getLast?, wsChar c = false) : pyStrip l = l := by
  unfold pyStrip
  have hrev : ∀ c ∈ l.reverse.head?, wsChar c = false := by
    intro c hc
    rw [List.head?_reverse] at hc
    exact h2 c hc
  rw [dropWhile_eq_self_of_head? _ hrev, List.reverse_reverse,
    dropWhile_eq_self_of_head? _ h1]

/-! ### Character-class facts -/

theorem char_eq_space_of_toNat {c : Char} (h : c.toNat = 32) : c = ' ' := by
  have h2 := Char.ofNat_toNat c
  rw [h] at h2
  rw [← h2]

theorem pyLowerChar_of_keep {c : Char} (h : keepChar c = true) : pyLowerChar c = c := by
  have h' : ¬ upperAlpha c = true := by
    simp only [keepChar, lowerAlpha, digitChar, Bool.or_eq_true, Bool.and_eq_true,
      decide_eq_true_eq] at h
    simp only [upperAlpha, Bool.and_eq_true, decide_eq_true_eq]
    omega
  simp [pyLowerChar, h']

theorem punctChar_of_keep {c : Char} (h : keepChar c = true) : punctChar c = false := by
  have h' : ¬ punctChar c = true := by
    simp only [keepChar, lowerAlpha, digitChar, Bool.or_eq_true, Bool.and_eq_true,
      decide_eq_true_eq] at h
    simp only [punctChar, Bool.or_eq_true, decide_eq_true_eq]
    omega
  simpa using h'

theorem space_of_keep_ws {c : Char} (hk : keepChar c = true) (hw : wsChar c = true) :
    c = ' ' := by
  apply char_eq_space_of_toNat
  simp only [keepChar, lowerAlpha, digitChar, Bool.or_eq_true, Bool.and_eq_true,
    decide_eq_true_eq] at hk
  simp only [wsChar, Bool.or_eq_true, decide_eq_true_eq] at hw
  omega

/-! ### Invariants of the output of `normNameL` -/

theorem map_eq_self_of_fix {f : Char → Char} :
    ∀ (l : List Char), (∀ c ∈ l, f c = c) → l.map f = l
  | [], _ => rfl
  | a :: as, h => by
    have ha : f a = a := h a (by simp)
    have ht := map_eq_self_of_fix as fun c hc => h c (by simp [hc])
    simp [ha, ht]

theorem filter_eq_self_of_true {p : Char → Bool} :
    ∀ (l : List Char), (∀ c ∈ l, p c = true) → l.filter p = l
  | [], _ => rfl
  | a :: as, h => by
    have ha : p a = true := h a (by simp)
    have ht := filter_eq_self_of_true as fun c hc => h c (by simp [hc])
    simp [List.filter_cons, ha, ht]

theorem keep_of_mem_normNameL (l : List Char) :
    ∀ c ∈ normNameL l, keepChar c = true := by
  intro c hc
  unfold normNameL at hc
  have hc2 := List.IsInfix.subset (pyStrip_within _) hc
  rcases mem_subRuns _ false c hc2 with h | ⟨h1, _⟩
  · subst h; decide
  · rcases mem_subRuns _ false c h1 with h | ⟨_, h2⟩
    · subst h; decide
    · simpa using h2

theorem chain'_normNameL (l : List Char) :
    List.Chain' (fun a b => ¬(a = ' ' ∧ b = ' ')) (normNameL l) := by
  unfold normNameL
  exact List.Chain'.infix (chain'_subRuns (by decide) _ false) (pyStrip_within _)

theorem head?_normNameL (l : List Char) :
    ∀ c ∈ (normNameL l).head?, wsChar c = false := by
  unfold normNameL
  exact head?_pyStrip _

theorem getLast?_normNameL (l : List Char) :
    ∀ c ∈ (normNameL l).getLast?, wsChar c = false := by
  unfold normNameL
  exact getLast?_pyStrip _

theorem normNameL_idem (l : List Char) : normNameL (normNameL l) = normNameL l := by
  have hkeep := keep_of_mem_normNameL l
  have hchain := chain'_normNameL l
  have hstrip : pyStrip (normNameL l) = normNameL l :=
    pyStrip_eq_self _ (head?_normNameL l) (getLast?_normNameL l)
  have hmap : (normNameL l).map pyLowerChar = normNameL l :=
    map_eq_self_of_fix _ fun c hc => pyLowerChar_of_keep (hkeep c hc)
  have hfilter : (normNameL l).filter (fun c => !punctChar c) = normNameL l :=
    filter_eq_self_of_true _ fun c hc => by simp [punctChar_of_keep (hkeep c hc)]
  have hspaceify : subRuns (fun c => !keepChar c) ' ' false (normNameL l) = normNameL l :=
    subRuns_eq_self _ (fun c hc => by simp [hkeep c hc]) false
  have hcollapse : subRuns wsChar ' ' false (normNameL l) = normNameL l :=
    subRuns_eq_self_of_chain _ (fun c hc hw => space_of_keep_ws (hkeep c hc) hw) hchain
  conv_lhs => rw [normNameL]
  rw [hstrip, hmap, hfilter, hspaceify, hcollapse, hstrip]

/-- Claim C8: `norm_name` is total (in particular it maps the empty string to the
empty key) and idempotent on every string. -/
theorem claim_C8_norm_name_total_idempotent :
    norm_name "" = "" ∧ ∀ s : String, norm_name (norm_name s) = norm_name s := by
  constructor
  · rfl
  · intro s
    show (⟨normNameL (norm_name s).data⟩ : String) = ⟨normNameL s.data⟩
    exact congrArg String.mk (normNameL_idem s.data)

/-! ### The tuple order used by `choose_iso_column` -/

theorem pyStrLt_irrefl : ∀ (a : List Char), pyStrLt a a = false
  | [] => rfl
  | x :: xs => by
    have h := pyStrLt_irrefl xs
    simp [pyStrLt, h]

theorem pyStrLt_asymm : ∀ (a b : List Char), pyStrLt a b = true → pyStrLt b a = false
  | [], [], h => by simp [pyStrLt] at h
  | [], _ :: _, _ => rfl
  | _ :: _, [], h => by simp [pyStrLt] at h
  | x :: xs, y :: ys, h => by
    by_cases h1 : x.toNat < y.toNat
    · have h2 : ¬ y.toNat < x.toNat := by omega
      simp [pyStrLt, h1, h2]
    · by_cases h2 : y.toNat < x.toNat
      · rw [pyStrLt, if_neg h1, if_pos h2] at h
        exact Bool.noConfusion h
      · rw [pyStrLt, if_neg h1, if_neg h2] at h
        rw [pyStrLt, if_neg h2, if_neg h1]
        exact pyStrLt_asymm xs ys h

theorem pyStrLt_le_trans :
    ∀ (a b c : List Char), pyStrLt a b = false → pyStrLt b c = false → pyStrLt a c = false
  | [], [], _ :: _, _, h2 => h2
  | [], _ :: _, _, h1, _ => by simp [pyStrLt] at h1
  | [], [], [], _, _ => rfl
  | _ :: _, _, [], _, _ => by rfl
  | _ :: _, [], _ :: _, _, h2 => by simp [pyStrLt] at h2
  | x :: xs, y :: ys, z :: zs, h1, h2 => by
    by_cases hxz : x.toNat < z.toNat
    · exfalso
      rw [pyStrLt] at h1 h2
      by_cases hxy : x.toNat < y.toNat
      · rw [if_pos hxy] at h1; exact Bool.noConfusion h1
      · by_cases hyz : y.toNat < z.toNat
        · rw [if_pos hyz] at h2; exact Bool.noConfusion h2
        · omega
    · by_cases hzx : z.toNat < x.toNat
      · simp [pyStrLt, hxz, hzx]
      · rw [pyStrLt, if_neg hxz, if_neg hzx]
        rw [pyStrLt] at h1 h2
        by_cases hxy : x.toNat < y.toNat
        · rw [if_pos hxy] at h1; exact Bool.noConfusion h1
        · by_cases hyz : y.toNat < z.toNat
          · rw [if_pos hyz] at h2; exact Bool.noConfusion h2
          · have hyx : ¬ y.toNat < x.toNat := by omega
            have hzy : ¬ z.toNat < y.toNat := by omega
            rw [if_neg hxy, if_neg hyx] at h1
            rw [if_neg hyz, if_neg hzy] at h2
            exact pyStrLt_le_trans xs ys zs h1 h2

theorem tupleGt_irrefl (a : Nat × String) : tupleGt a a = false := by
  simp [tupleGt, pyStrLt_irrefl]

theorem tupleGt_asymm {a b : Nat × String} (h : tupleGt a b = true) :
    tupleGt b a = false := by
  simp only [tupleGt, Bool.or_eq_true, Bool.and_eq_true, decide_eq_true_eq] at h
  simp only [tupleGt, Bool.or_eq_false_iff, Bool.and_eq_false_iff, decide_eq_false_iff_not]
  rcases h with h | ⟨h1, h2⟩
  · exact ⟨by omega, Or.inl (by omega)⟩
  · exact ⟨by omega, Or.inr (pyStrLt_asymm _ _ h2)⟩

theorem tupleGt_le_trans {a b c : Nat × String} (h1 : tupleGt a b = false)
    (h2 : tupleGt b c = false) : tupleGt a c = false := by
  simp only [tupleGt, Bool.or_eq_false_iff, Bool.and_eq_false_iff,
    decide_eq_false_iff_not] at h1 h2 ⊢
  obtain ⟨h1a, h1b⟩ := h1
  obtain ⟨h2a, h2b⟩ := h2
  refine ⟨by omega, ?_⟩
  by_cases hac : a.1 = c.1
  · have hab : a.1 = b.1 := by omega
    have hbc : b.1 = c.1 := by omega
    rcases h1b with h | h
    · exact absurd hab h
    · rcases h2b with h' | h'
      · exact absurd hbc h'
      · exact Or.inr (pyStrLt_le_trans _ _ _ h' h)
  · exact Or.inl hac

theorem tupleGt_score_le {a b : Nat × String} (h : tupleGt a b = false) : a.1 ≤ b.1 := by
  simp only [tupleGt, Bool.or_eq_false_iff, Bool.and_eq_false_iff,
    decide_eq_false_iff_not] at h
  omega

theorem tupleGt_name_of_eq {a b : Nat × String} (h : tupleGt a b = false)
    (hs : a.1 = b.1) : pyStrLt b.2.data a.2.data = false := by
  simp only [tupleGt, Bool.or_eq_false_iff, Bool.and_eq_false_iff,
    decide_eq_false_iff_not] at h
  rcases h.2 with h' | h'
  · exact absurd hs h'
  · exact h'

theorem pickBest_mem :
    ∀ (xs : List (Nat × String)) (b), pickBest b xs = b ∨ pickBest b xs ∈ xs := by
  intro xs
  induction xs with
  | nil => intro b; exact Or.inl rfl
  | cons x xs ih =>
    intro b
    have hunfold : pickBest b (x :: xs) = pickBest (if tupleGt x b then x else b) xs := rfl
    rcases ih (if tupleGt x b then x else b) with h | h
    · rw [hunfold, h]
      split_ifs
      · exact Or.inr (by simp)
      · exact Or.inl rfl
    · rw [hunfold]
      exact Or.inr (List.mem_cons_of_mem _ h)

theorem pickBest_ge :
    ∀ (xs : List (Nat × String)) (b), tupleGt b (pickBest b xs) = false ∧
      ∀ x ∈ xs, tupleGt x (pickBest b xs) = false := by
  intro xs
  induction xs with
  | nil => intro b; exact ⟨tupleGt_irrefl b, by simp⟩
  | cons x xs ih =>
    intro b
    obtain ⟨ihb, ihx⟩ := ih (if tupleGt x b then x else b)
    have hb : tupleGt b (pickBest (if tupleGt x b then x else b) xs) = false := by
      split_ifs at ihb ⊢ with hx
      · exact tupleGt_le_trans (tupleGt_asymm hx) ihb
      · exact ihb
    have hx : tupleGt x (pickBest (if tupleGt x b then x else b) xs) = false := by
      split_ifs at ihb ⊢ with hx
      · exact ihb
      · exact tupleGt_le_trans (by simpa using hx) ihb
    refine ⟨hb, fun y hy => ?_⟩
    rcases List.mem_cons.mp hy with rfl | hy'
    · exact hx
    · exact ihx y hy'

/-! ### Claims C1 and C2 -/

/-- A single-predicate reformulation of `score_col`, matching the spec's phrasing
"count of sample values that are exactly 3 alphabetic characters and not a
known sentinel". -/
theorem score_col_eq_count (vals : List String) :
    score_col vals = ((vals.map (fun v => pyStrip v.data)).filter
      (fun v => v.length == 3 && pyIsAlpha v &&
        !(decide (v = "-99".data ∨ v = "0".data)))).length := by
  simp only [score_col, List.filter_filter]
  congr 1
  apply List.filter_congr
  intro a _
  cases h1 : (a.length == 3) <;> cases h2 : pyIsAlpha a <;>
    cases h3 : decide (a = "-99".data ∨ a = "0".data) <;> rfl

/-- Unfolding of `choose_iso_column` when the candidate list is non-empty. -/
theorem choose_iso_column_cons {gdf : List (String × List String)}
    {c0 : String × List String} {cs : List (String × List String)}
    (hc : candidatesOf gdf = c0 :: cs) :
    choose_iso_column gdf =
      if (pickBest (score_col c0.2, c0.1) (cs.map (fun col => (score_col col.2, col.1)))).1 = 0
      then none
      else some (pickBest (score_col c0.2, c0.1)
        (cs.map (fun col => (score_col col.2, col.1)))).2 := by
  unfold choose_iso_column
  rw [hc]

/-- Claim C1: `choose_iso_column` filters candidates by known ISO-like names,
scores each candidate by the count of stripped sample values that are exactly 3
alphabetic characters and not a sentinel, picks a candidate of maximal score,
returns `none` when there is no candidate or the best score is `0`, and on the
columns `ISO_A3 = [-99, -99, FRA]`, `ADM0_A3 = [FRA, NOR, ITA]` selects
`ADM0_A3`. -/
theorem claim_C1_choose_iso_column :
    choose_iso_column [("ISO_A3", ["-99", "-99", "FRA"]), ("ADM0_A3", ["FRA", "NOR", "ITA"])]
        = some "ADM0_A3" ∧
    (∀ gdf, candidatesOf gdf = [] → choose_iso_column gdf = none) ∧
    (∀ gdf, (∀ col ∈ candidatesOf gdf, score_col col.2 = 0) → choose_iso_column gdf = none) ∧
    (∀ gdf c, choose_iso_column gdf = some c →
      ∃ col ∈ candidatesOf gdf, col.1 = c ∧ score_col col.2 ≠ 0 ∧
        ∀ col' ∈ candidatesOf gdf, score_col col'.2 ≤ score_col col.2) := by
  refine ⟨by decide, fun gdf h => ?_, fun gdf h => ?_, fun gdf c h => ?_⟩
  · unfold choose_iso_column
    rw [h]
  · cases hc : candidatesOf gdf with
    | nil =>
      unfold choose_iso_column
      rw [hc]
    | cons c0 cs =>
      rw [hc] at h
      have hbest := pickBest_mem (cs.map (fun col => (score_col col.2, col.1)))
        (score_col c0.2, c0.1)
      have hzero : (pickBest (score_col c0.2, c0.1)
          (cs.map (fun col => (score_col col.2, col.1)))).1 = 0 := by
        rcases hbest with hb | hb
        · rw [hb]
          exact h c0 (by simp)
        · obtain ⟨col, hcol, hfcol⟩ := List.mem_map.mp hb
          rw [← hfcol]
          exact h col (by simp [hcol])
      rw [choose_iso_column_cons hc, if_pos hzero]
  · cases hc : candidatesOf gdf with
    | nil =>
      have hnone : choose_iso_column gdf = none := by
        unfold choose_iso_column
        rw [hc]
      rw [hnone] at h
      exact absurd h (by simp)
    | cons c0 cs =>
      rw [choose_iso_column_cons hc] at h
      have hbm := pickBest_mem (cs.map (fun col => (score_col col.2, col.1)))
        (score_col c0.2, c0.1)
      have hge := pickBest_ge (cs.map (fun col => (score_col col.2, col.1)))
        (score_col c0.2, c0.1)
      by_cases hz : (pickBest (score_col c0.2, c0.1)
          (cs.map (fun col => (score_col col.2, col.1)))).1 = 0
      · rw [if_pos hz] at h
        exact absurd h (by simp)
      · rw [if_neg hz] at h
        have hcbest : c = (pickBest (score_col c0.2, c0.1)
            (cs.map (fun col => (score_col col.2, col.1)))).2 := by
          simpa using h.symm
        have hcol : ∃ col ∈ c0 :: cs, (score_col col.2, col.1) =
            pickBest (score_col c0.2, c0.1)
              (cs.map (fun col => (score_col col.2, col.1))) := by
          rcases hbm with hb | hb
          · exact ⟨c0, by simp, hb.symm⟩
          · obtain ⟨col, hcolmem, hfcol⟩ := List.mem_map.mp hb
            exact ⟨col, List.mem_cons_of_mem _ hcolmem, hfcol⟩
        obtain ⟨col, hcolmem, hfcol⟩ := hcol
        refine ⟨col, hcolmem, ?_, ?_, ?_⟩
        · rw [hcbest, ← hfcol]
        · intro h0
          apply hz
          rw [← hfcol, h0]
        · intro col' hcol'
          have hnotgt : tupleGt (score_col col'.2, col'.1)
              (pickBest (score_col c0.2, c0.1)
                (cs.map (fun col => (score_col col.2, col.1)))) = false := by
            rcases List.mem_cons.mp hcol' with rfl | hmem
            · exact hge.1
            · exact hge.2 _ (List.mem_map.mpr ⟨col', hmem, rfl⟩)
          have hle := tupleGt_score_le hnotgt
          rw [← hfcol] at hle
          simpa using hle

/-- Witness for claim C1: a frame with no ISO-like column yields `none`. -/
theorem claim_C1_witness :
    choose_iso_column [("population", ["123", "456"])] = none :=
  claim_C1_choose_iso_column.2.1 [("population", ["123", "456"])] (by decide)

/-- Counterexample for claim C2: with candidates `ADM0_A3` (first, score 1) and
`ISO_A3` (second, score 1) tied, the code returns `ISO_A3`, not the
first-occurring `ADM0_A3`: `scored.sort(reverse=True)` breaks ties by the
descending column name, not by candidate-list position. -/
theorem claim_C2_counterexample :
    choose_iso_column [("ADM0_A3", ["FRA"]), ("ISO_A3", ["DEU"])] = some "ISO_A3" ∧
    score_col ["FRA"] = 1 ∧ score_col ["DEU"] = 1 ∧
    candidatesOf [("ADM0_A3", ["FRA"]), ("ISO_A3", ["DEU"])]
      = [("ADM0_A3", ["FRA"]), ("ISO_A3", ["DEU"])] := by
  refine ⟨by decide, by decide, by decide, by decide⟩

/-- Claim C2 (amended): among equally-scored candidates, `choose_iso_column`
returns the one whose column name is greatest in code-point order (the tie-break
of Python's descending tuple sort), regardless of candidate-list position. -/
theorem claim_C2_tie_break_by_name (gdf : List (String × List String)) (c : String)
    (h : choose_iso_column gdf = some c) :
    ∃ col ∈ candidatesOf gdf, col.1 = c ∧
      ∀ col' ∈ candidatesOf gdf, score_col col'.2 = score_col col.2 →
        pyStrLt c.data col'.1.data = false := by
  cases hc : candidatesOf gdf with
  | nil =>
    have hnone : choose_iso_column gdf = none := by
      unfold choose_iso_column
      rw [hc]
    rw [hnone] at h
    exact absurd h (by simp)
  | cons c0 cs =>
    rw [choose_iso_column_cons hc] at h
    have hbm := pickBest_mem (cs.map (fun col => (score_col col.2, col.1)))
      (score_col c0.2, c0.1)
    have hge := pickBest_ge (cs.map (fun col => (score_col col.2, col.1)))
      (score_col c0.2, c0.1)
    by_cases hz : (pickBest (score_col c0.2, c0.1)
        (cs.map (fun col => (score_col col.2, col.1)))).1 = 0
    · rw [if_pos hz] at h
      exact absurd h (by simp)
    · rw [if_neg hz] at h
      have hcbest : c = (pickBest (score_col c0.2, c0.1)
          (cs.map (fun col => (score_col col.2, col.1)))).2 := by
        simpa using h.symm
      have hcol : ∃ col ∈ c0 :: cs, (score_col col.2, col.1) =
          pickBest (score_col c0.2, c0.1)
            (cs.map (fun col => (score_col col.2, col.1))) := by
        rcases hbm with hb | hb
        · exact ⟨c0, by simp, hb.symm⟩
        · obtain ⟨col, hcolmem, hfcol⟩ := List.mem_map.mp hb
          exact ⟨col, List.mem_cons_of_mem _ hcolmem, hfcol⟩
      obtain ⟨col, hcolmem, hfcol⟩ := hcol
      refine ⟨col, hcolmem, by rw [hcbest, ← hfcol], ?_⟩
      intro col' hcol' hscore
      have hnotgt : tupleGt (score_col col'.2, col'.1)
          (pickBest (score_col c0.2, c0.1)
            (cs.map (fun col => (score_col col.2, col.1)))) = false := by
        rcases List.mem_cons.mp hcol' with rfl | hmem
        · exact hge.1
        · exact hge.2 _ (List.mem_map.mpr ⟨col', hmem, rfl⟩)
      have hseq : score_col col'.2 = (pickBest (score_col c0.2, c0.1)
          (cs.map (fun col => (score_col col.2, col.1)))).1 := by
        rw [hscore, ← hfcol]
      have hname := tupleGt_name_of_eq hnotgt hseq
      rw [hcbest]
      simpa using hname

/-- Witness for the amended claim C2, at the tie input of the counterexample. -/
theorem claim_C2_witness :
    ∃ col ∈ candidatesOf [("ADM0_A3", ["FRA"]), ("ISO_A3", ["DEU"])],
      col.1 = "ISO_A3" ∧
      ∀ col' ∈ candidatesOf [("ADM0_A3", ["FRA"]), ("ISO_A3", ["DEU"])],
        score_col col'.2 = score_col col.2 →
          pyStrLt "ISO_A3".data col'.1.data = false :=
  claim_C2_tie_break_by_name [("ADM0_A3", ["FRA"]), ("ISO_A3", ["DEU"])] "ISO_A3" (by decide)

/-! ### More character and list helpers -/

theorem alpha_not_ws {c : Char} (h : alphaChar c = true) : wsChar c = false := by
  simp only [alphaChar, upperAlpha, lowerAlpha, Bool.or_eq_true, Bool.and_eq_true,
    decide_eq_true_eq] at h
  simp only [wsChar, Bool.or_eq_true, decide_eq_true_eq]
  simp only [Bool.or_eq_false_iff, decide_eq_false_iff_not]
  omega

theorem digit_not_ws {c : Char} (h : digitChar c = true) : wsChar c = false := by
  simp only [digitChar, Bool.and_eq_true, decide_eq_true_eq] at h
  simp only [wsChar, Bool.or_eq_false_iff, decide_eq_false_iff_not]
  omega

theorem mem_pyStrip (l : List Char) {c : Char} (hc : c ∈ pyStrip l) : c ∈ l :=
  List.IsInfix.subset (pyStrip_within l) hc

theorem pyStrip_eq_self_of_not_ws (l : List Char)
    (h : ∀ c ∈ l, wsChar c = false) : pyStrip l = l :=
  pyStrip_eq_self l (fun c hc => h c (List.mem_of_mem_head? hc))
    (fun c hc => h c (List.mem_of_mem_getLast? hc))

theorem takeWhile_eq_nil_of_false {p : Char → Bool} :
    ∀ (l : List Char), (∀ c ∈ l, p c = false) → l.takeWhile p = []
  | [], _ => rfl
  | a :: as, h => by
    have ha : p a = false := h a (by simp)
    simp [List.takeWhile_cons, ha]

theorem dropWhile_eq_self_of_false {p : Char → Bool} (l : List Char)
    (h : ∀ c ∈ l, p c = false) : l.dropWhile p = l :=
  dropWhile_eq_self_of_head? l (fun c hc => h c (List.mem_of_mem_head? hc))

theorem splitDot_replicate : ∀ n : Nat,
    splitDot (List.replicate n '.') = List.replicate (n + 1) ([] : List Char)
  | 0 => rfl
  | n + 1 => by
    show splitDot ('.' :: List.replicate n '.') = _
    rw [splitDot]
    simp [splitDot_replicate n, List.replicate]

theorem pyFloatDigits_none_of_no_digit (l : List Char)
    (h : ∀ c ∈ l, digitChar c = false) : pyFloatDigits l = none := by
  by_cases hall : l.all (fun c => digitChar c || c = '.') = true
  · have hdots : ∀ c ∈ l, c = '.' := by
      intro c hc
      have h1 := List.all_eq_true.mp hall c hc
      have h2 := h c hc
      simp only [h2, Bool.false_or, decide_eq_true_eq] at h1
      exact h1
    have hrep : l = List.replicate l.length '.' :=
      List.eq_replicate_iff.mpr ⟨rfl, hdots⟩
    rw [pyFloatDigits, hall]
    rw [show (!true) = false from rfl, if_neg (by simp)]
    rw [hrep, splitDot_replicate]
    rcases l.length with _ | _ | n
    · simp [List.replicate]
    · simp [List.replicate]
    · simp [List.replicate]
  · have hall2 : l.all (fun c => digitChar c || c = '.') = false := by
      simpa using hall
    rw [pyFloatDigits, hall2]
    rw [show (!false) = true from rfl, if_pos rfl]

theorem find?_first {α : Type} (p : String × α → Bool) :
    ∀ (pre : List (String × α)) (kv : String × α) (post : List (String × α)),
      (∀ x ∈ pre, p x = false) → p kv = true →
      ((pre ++ kv :: post).find? p) = some kv
  | [], kv, post, _, hkv => by
    rw [List.nil_append]
    exact List.find?_cons_of_pos _ hkv
  | x :: pre, kv, post, hpre, hkv => by
    rw [List.cons_append, List.find?_cons_of_neg _ (by simp [hpre x (by simp)])]
    exact find?_first p pre kv post (fun y hy => hpre y (by simp [hy])) hkv

/-! ### Claim C3: the order of the name-resolution fallback chain -/

/-- Claim C3: name resolution tries the exact normalized-name match first, the
alias table only if that fails, and the substring scan only if both fail, the
scan accepting the first reference key (in iteration order) related to the name
by containment in either direction. -/
theorem claim_C3_resolution_order {α : Type} :
    (∀ (refMap : List (String × α)) (aliasT : List (String × String)) (n : String) (v : α),
      lookupA refMap n = some v → resolveName refMap aliasT n = some v) ∧
    (∀ (refMap : List (String × α)) (aliasT : List (String × String)) (n a : String) (v : α),
      lookupA refMap n = none → lookupA aliasT n = some a → lookupA refMap a = some v →
        resolveName refMap aliasT n = some v) ∧
    (∀ (refMap : List (String × α)) (aliasT : List (String × String)) (n : String),
      lookupA refMap n = none →
      (∀ a, lookupA aliasT n = some a → lookupA refMap a = none) →
        resolveName refMap aliasT n =
          (refMap.find? (fun kv => pyInStr n kv.1 || pyInStr kv.1 n)).map (fun kv => kv.2)) ∧
    (∀ (pre post : List (String × α)) (aliasT : List (String × String)) (n k : String) (v : α),
      lookupA (pre ++ (k, v) :: post) n = none →
      (∀ a, lookupA aliasT n = some a → lookupA (pre ++ (k, v) :: post) a = none) →
      (∀ kv ∈ pre, (pyInStr n kv.1 || pyInStr kv.1 n) = false) →
      (pyInStr n k || pyInStr k n) = true →
        resolveName (pre ++ (k, v) :: post) aliasT n = some v) := by
  have hfuzzy : ∀ (refMap : List (String × α)) (aliasT : List (String × String)) (n : String),
      lookupA refMap n = none →
      (∀ a, lookupA aliasT n = some a → lookupA refMap a = none) →
        resolveName refMap aliasT n =
          (refMap.find? (fun kv => pyInStr n kv.1 || pyInStr kv.1 n)).map (fun kv => kv.2) := by
    intro refMap aliasT n h1 h2
    cases ha : lookupA aliasT n with
    | none => simp [resolveName, h1, ha]
    | some a => simp [resolveName, h1, ha, h2 a ha]
  refine ⟨?_, ?_, hfuzzy, ?_⟩
  · intro refMap aliasT n v h
    simp [resolveName, h]
  · intro refMap aliasT n a v h1 h2 h3
    simp [resolveName, h1, h2, h3]
  · intro pre post aliasT n k v h1 h2 h3 h4
    rw [hfuzzy _ _ _ h1 h2, find?_first _ pre (k, v) post h3 h4]
    rfl

/-- Witness for claim C3: the alias step fires for "congo" (absent from the
reference map) and lands on "republic of the congo". -/
theorem claim_C3_witness :
    resolveName [("republic of the congo", (5 : ℚ))] aliasCapita "congo" = some 5 :=
  claim_C3_resolution_order.2.1 [("republic of the congo", (5 : ℚ))] aliasCapita
    "congo" "republic of the congo" 5 (by decide) (by decide) (by decide)

/-! ### Claim C4: ISO-code canonicalization -/

/-- Claim C4: a 3-letter alphabetic raw code is uppercased with no registry
lookup (the result is the same for every registry); a purely numeric raw code is
zero-padded to 3 digits and looked up exactly in the numeric registry, so
`"380"` gives `"ITA"` and `"084"` gives `"BLZ"`. -/
theorem claim_C4_iso_code_canonicalization :
    (∀ (reg2 : List (String × String)) (s : String),
      s.data.length = 3 → (∀ c ∈ s.data, alphaChar c = true) →
        clean_iso_code reg2 s = some (pyUpperStr s)) ∧
    (∀ (regN : List (String × String)) (s : String),
      s.data ≠ [] → (∀ c ∈ s.data, digitChar c = true) →
        numeric_to_alpha3 regN s = (lookupA regN ⟨zfill3 s.data⟩).getD "") ∧
    numeric_to_alpha3 isoNumericRegistry "380" = "ITA" ∧
    numeric_to_alpha3 isoNumericRegistry "084" = "BLZ" := by
  refine ⟨?_, ?_, by decide, by decide⟩
  · intro reg2 s hlen halpha
    have hstrip : pyStrip s.data = s.data :=
      pyStrip_eq_self_of_not_ws _ (fun c hc => alpha_not_ws (halpha c hc))
    have hnonempty : s.data.isEmpty = false := by
      cases hd : s.data with
      | nil => rw [hd] at hlen; simp at hlen
      | cons a as => rfl
    have hcond : ((pyStrip s.data).length = 3 && pyIsAlpha (pyStrip s.data)) = true := by
      rw [hstrip, Bool.and_eq_true]
      constructor
      · simp [hlen]
      · simp only [pyIsAlpha, hnonempty, Bool.not_false, Bool.true_and, List.all_eq_true]
        exact halpha
    unfold clean_iso_code
    rw [if_pos hcond, hstrip]
    rfl
  · intro regN s hne hdig
    have hempty : s.data.isEmpty = false := by
      cases hd : s.data with
      | nil => exact absurd hd hne
      | cons a as => rfl
    have hfilter : s.data.filter digitChar = s.data :=
      filter_eq_self_of_true _ hdig
    unfold numeric_to_alpha3
    rw [hempty, if_neg (by simp), hfilter]

/-- Witness for claim C4: `"fra"` is returned uppercased against the empty
registry. -/
theorem claim_C4_witness :
    clean_iso_code [] "fra" = some (pyUpperStr "fra") ∧ pyUpperStr "fra" = "FRA" :=
  ⟨claim_C4_iso_code_canonicalization.1 [] "fra" (by decide) (by decide), by decide⟩

/-! ### Claim C5: the merge is a left join on geometry -/

theorem filter_singleton_of_nodup {α : Type} :
    ∀ (df : List (String × α)), (df.map Prod.fst).Nodup → ∀ iso : String,
      df.filter (fun kv => kv.1 == iso) =
        (match df.find? (fun kv => kv.1 == iso) with
         | none => ([] : List (String × α))
         | some kv => [kv]) := by
  intro df
  induction df with
  | nil => intro _ _; rfl
  | cons hd tl ih =>
    intro hnd iso
    rw [List.map_cons, List.nodup_cons] at hnd
    by_cases h : (hd.1 == iso) = true
    · rw [@List.filter_cons_of_pos _ (fun kv => kv.1 == iso) hd tl h,
        @List.find?_cons_of_pos _ (fun kv => kv.1 == iso) hd tl h]
      have htl : tl.filter (fun kv => kv.1 == iso) = [] := by
        rw [List.filter_eq_nil_iff]
        intro kv hkv hcontra
        apply hnd.1
        have h1 : kv.1 = iso := by simpa using hcontra
        have h2 : hd.1 = iso := by simpa using h
        rw [h2, ← h1]
        exact List.mem_map.mpr ⟨kv, hkv, rfl⟩
      rw [htl]
    · rw [@List.filter_cons_of_neg _ (fun kv => kv.1 == iso) hd tl h,
        @List.find?_cons_of_neg _ (fun kv => kv.1 == iso) hd tl h]
      exact ih hnd.2 iso

/-- Claim C5: the merge is a left join of geometry onto the metric map: with
unique metric keys every geometry feature produces exactly one output row
carrying `lookupA` of its code (missing when absent), rows only ever carry
geometry codes (unmatched metric entries are dropped), and on geometry
`{FRA, DEU}` with metric `{FRA ↦ 5}` the output is exactly
`[(FRA, 5), (DEU, missing)]`. -/
theorem claim_C5_merge_left_join {α : Type} :
    (∀ (world : List String) (df : List (String × α)), (df.map Prod.fst).Nodup →
      mergeLeft world df = world.map (fun iso => (iso, lookupA df iso))) ∧
    (∀ (world : List String) (df : List (String × α)),
      ∀ pr ∈ mergeLeft world df, pr.1 ∈ world) ∧
    mergeLeft ["FRA", "DEU"] [("FRA", (5 : ℚ))] = [("FRA", some 5), ("DEU", none)] := by
  refine ⟨?_, ?_, by decide⟩
  · intro world df hnd
    induction world with
    | nil => rfl
    | cons iso rest ih =>
      rw [show mergeLeft (iso :: rest) df =
          (match df.filter (fun kv => kv.1 == iso) with
           | [] => [(iso, (none : Option α))]
           | ms => ms.map (fun kv => (iso, some kv.2))) ++ mergeLeft rest df from rfl]
      rw [List.map_cons, ← ih]
      rw [filter_singleton_of_nodup df hnd iso]
      unfold lookupA
      cases hf : df.find? (fun kv => kv.1 == iso) with
      | none => rfl
      | some kv => rfl
  · intro world df pr hpr
    unfold mergeLeft at hpr
    obtain ⟨iso, hiso, hmem⟩ := List.mem_flatMap.mp hpr
    cases hf : df.filter (fun kv => kv.1 == iso) with
    | nil =>
      rw [hf] at hmem
      have : pr = (iso, none) := by simpa using hmem
      rw [this]
      exact hiso
    | cons m ms =>
      rw [hf] at hmem
      obtain ⟨kv, _, hkv⟩ := List.mem_map.mp hmem
      rw [← hkv]
      exact hiso

/-- Witness for claim C5: the left-join shape at the concrete geometry/metric
pair of the spec example. -/
theorem claim_C5_witness :
    mergeLeft ["FRA", "DEU"] [("FRA", (5 : ℚ))] =
      ["FRA", "DEU"].map (fun iso => (iso, lookupA [("FRA", (5 : ℚ))] iso)) :=
  claim_C5_merge_left_join.1 ["FRA", "DEU"] [("FRA", (5 : ℚ))] (by decide)

/-! ### Claim C6: numeric coercion of the value column -/

theorem parseTrack_zero_of_no_digit (s : String)
    (h : ∀ c ∈ s.data, digitChar c = false) : parseTrack s = 0 := by
  unfold parseTrack
  rw [pyFloatDigits_none_of_no_digit _ (fun c hc =>
    h c (List.mem_of_mem_filter hc))]
  rfl

theorem coerceNumeric_none_of_no_digit (s : String)
    (h : ∀ c ∈ s.data, digitChar c = false) : coerceNumeric s = none := by
  have hsub : ∀ c ∈ pyStrip s.data, digitChar c = false :=
    fun c hc => h c (mem_pyStrip _ hc)
  unfold coerceNumeric
  cases hm : pyStrip s.data with
  | nil => exact pyFloatDigits_none_of_no_digit [] (by simp)
  | cons c rest =>
    rw [hm] at hsub
    have hrest : ∀ x ∈ rest, digitChar x = false :=
      fun x hx => hsub x (List.mem_cons_of_mem _ hx)
    show (if c = '-' then (pyFloatDigits rest).map (fun q => -q)
        else if c = '+' then pyFloatDigits rest
        else pyFloatDigits (c :: rest)) = none
    by_cases h1 : c = '-'
    · rw [if_pos h1, pyFloatDigits_none_of_no_digit rest hrest]
      rfl
    · rw [if_neg h1]
      by_cases h2 : c = '+'
      · rw [if_pos h2]
        exact pyFloatDigits_none_of_no_digit rest hrest
      · rw [if_neg h2]
        exact pyFloatDigits_none_of_no_digit (c :: rest) hsub

/-- Counterexample for claim C6: in the per-capita pipeline the value cell
`"n/a"` fails numeric parsing (`float` of its digit residue is an error, and
pandas would coerce it to missing), yet the pipeline emits the row with the
value `0`, not missing. -/
theorem claim_C6_counterexample :
    runCapita [("france", (68 : ℚ))] aliasCapita isoNumericRegistry
        [("France", "250", "n/a")] = ([("France", "FRA", 0)], []) ∧
    pyFloatDigits ("n/a".data.filter (fun c => digitChar c || c = '.')) = none ∧
    coerceNumeric "n/a" = none := by
  refine ⟨?_, by decide, by decide⟩
  rw [show runCapita [("france", (68 : ℚ))] aliasCapita isoNumericRegistry
      [("France", "250", "n/a")]
      = ([("France", "FRA", parseTrack ⟨pyStrip "n/a".data⟩ / 68 * 1000)], []) from rfl]
  rw [show parseTrack ⟨pyStrip "n/a".data⟩ = 0 from by decide]
  norm_num

/-- Claim C6 (amended): in the choropleth loader a digit-free value cell
coerces to missing, never to a number; but in the per-capita/per-area track
pipelines a digit-free value cell is coerced to `0.0`, and when the row's
country matches a non-zero reference value the row is emitted with value `0`
rather than being marked missing. -/
theorem claim_C6_nonnumeric_cells :
    (∀ s : String, (∀ c ∈ s.data, digitChar c = false) → coerceNumeric s = none) ∧
    (∀ s : String, (∀ c ∈ s.data, digitChar c = false) → parseTrack s = 0) ∧
    (∀ (popMap : List (String × ℚ)) (aliasT regN : List (String × String))
       (cr ir tr : String) (p : ℚ),
      resolveName popMap aliasT (norm_name ⟨pyStrip cr.data⟩) = some p → p ≠ 0 →
      (∀ c ∈ tr.data, digitChar c = false) →
        processRowCapita popMap aliasT regN (cr, ir, tr) =
          Sum.inr (⟨pyStrip cr.data⟩,
            (if numeric_to_alpha3 regN ⟨pyStrip ir.data⟩ ≠ "" then
              numeric_to_alpha3 regN ⟨pyStrip ir.data⟩ else ⟨pyStrip ir.data⟩), 0)) := by
  refine ⟨coerceNumeric_none_of_no_digit, parseTrack_zero_of_no_digit, ?_⟩
  intro popMap aliasT regN cr ir tr p hres hp htr
  have htrack : parseTrack ⟨pyStrip tr.data⟩ = 0 :=
    parseTrack_zero_of_no_digit _ (fun c hc => htr c (mem_pyStrip _ hc))
  simp only [processRowCapita, hres]
  rw [if_neg hp, htrack, zero_div, zero_mul]

/-- Witness for the amended claim C6: the concrete `"n/a"` row of the
counterexample, emitted with value `0`. -/
theorem claim_C6_witness :
    processRowCapita [("france", (68 : ℚ))] aliasCapita isoNumericRegistry
      ("France", "250", "n/a") =
      Sum.inr ("France",
        (if numeric_to_alpha3 isoNumericRegistry ⟨pyStrip "250".data⟩ ≠ "" then
          numeric_to_alpha3 isoNumericRegistry ⟨pyStrip "250".data⟩
         else ⟨pyStrip "250".data⟩), 0) :=
  claim_C6_nonnumeric_cells.2.2 [("france", (68 : ℚ))] aliasCapita isoNumericRegistry
    "France" "250" "n/a" 68 (by decide) (by norm_num) (by decide)

/-! ### Claim C7: `parse_area` -/

theorem matchNumSuffix_none_of_no_digit (l : List Char)
    (h : ∀ c ∈ l, digitChar c = false) : matchNumSuffix l = none := by
  have hd1 : l.takeWhile digitChar = [] := takeWhile_eq_nil_of_false l h
  have hr1 : l.dropWhile digitChar = l := dropWhile_eq_self_of_false l h
  simp only [matchNumSuffix]
  rw [hd1, hr1]
  by_cases hh : l.head? = some '.'
  · rw [if_pos hh]
    have htail : l.tail.takeWhile digitChar = [] :=
      takeWhile_eq_nil_of_false _ (fun c hc => h c (List.mem_of_mem_tail hc))
    rw [htail]
    simp
  · rw [if_neg hh]
    simp

/-- Unfolding of `parse_area` on a present cell. -/
theorem parse_area_some (s : String) :
    parse_area (some s) =
      (if ((pyStrip s.data).isEmpty
          || decide ((⟨(pyStrip s.data).map pyLowerChar⟩ : String) = "nan")) = true then none
      else
        match matchNumSuffix (pyStrip (((pyStrip s.data).filter
            (fun c => !(c = ' ' || c = ',' || c = ' '))).filter (fun c => !(c = '<')))) with
        | some q => some q
        | none =>
          if ((pyStrip (((pyStrip s.data).filter
              (fun c => !(c = ' ' || c = ',' || c = ' '))).filter (fun c => !(c = '<')))).filter
                (fun c => digitChar c || c = '.')).isEmpty = true then none
          else pyFloatDigits ((pyStrip (((pyStrip s.data).filter
              (fun c => !(c = ' ' || c = ',' || c = ' '))).filter (fun c => !(c = '<')))).filter
                (fun c => digitChar c || c = '.'))) := rfl

/-- Claim C7: the secondary value parser maps `"3M"` to three million,
`"364.5K"` to `364500`, `"< 1"` to `1`, the empty cell to missing, and any
digit-free cell to missing — never to `0`. -/
theorem claim_C7_parse_area :
    parse_area (some "3M") = some 3000000 ∧
    parse_area (some "364.5K") = some 364500 ∧
    parse_area (some "< 1") = some 1 ∧
    parse_area (some "") = none ∧
    (∀ s : String, (∀ c ∈ s.data, digitChar c = false) → parse_area (some s) = none) := by
  refine ⟨?_, ?_, ?_, by decide, ?_⟩
  · rw [show parse_area (some "3M") = some ((3 : ℚ) * 1000000) from rfl]
    norm_num
  · rw [show parse_area (some "364.5K")
        = some (((364 : ℚ) + 5 / 10 ^ 1) * 1000) from rfl]
    norm_num
  · rw [show parse_area (some "< 1") = some ((1 : ℚ) * 1) from rfl]
    norm_num
  · intro s hs
    have hm : ∀ c ∈ pyStrip (((pyStrip s.data).filter
        (fun c => !(c = ' ' || c = ',' || c = ' '))).filter (fun c => !(c = '<'))),
        digitChar c = false := by
      intro c hc
      exact hs c (mem_pyStrip _ (List.mem_of_mem_filter
        (List.mem_of_mem_filter (mem_pyStrip _ hc))))
    rw [parse_area_some]
    by_cases hc1 : ((pyStrip s.data).isEmpty
        || decide ((⟨(pyStrip s.data).map pyLowerChar⟩ : String) = "nan")) = true
    · rw [if_pos hc1]
    · rw [if_neg hc1, matchNumSuffix_none_of_no_digit _ hm,
        pyFloatDigits_none_of_no_digit _
          (fun c hc => hm c (List.mem_of_mem_filter hc))]
      simp

/-- Witness for claim C7: the all-non-numeric cell `"km"` parses to missing. -/
theorem claim_C7_witness : parse_area (some "km") = none :=
  claim_C7_parse_area.2.2.2.2 "km" (by decide)

/-! ### Claim C9: zero reference values are treated as unmatched -/

/-- Claim C9: in both pipelines a row whose matched population or area is `0`
goes to the unmatched diagnostics exactly like an unmatched row and produces no
output row; every emitted row's divisor is the non-zero matched value. -/
theorem claim_C9_zero_divisor_skipped :
    (∀ (popMap : List (String × ℚ)) (aliasT regN : List (String × String))
       (row : String × String × String),
      resolveName popMap aliasT (norm_name ⟨pyStrip row.1.data⟩) = some 0 →
        processRowCapita popMap aliasT regN row = Sum.inl ⟨pyStrip row.1.data⟩) ∧
    (∀ (areaMap : List (String × ℚ)) (aliasT regN : List (String × String))
       (row : String × String × String),
      resolveName areaMap aliasT (norm_name ⟨pyStrip row.1.data⟩) = some 0 →
        processRowArea areaMap aliasT regN row = Sum.inl ⟨pyStrip row.1.data⟩) ∧
    (∀ (popMap : List (String × ℚ)) (aliasT regN : List (String × String))
       (row : String × String × String) (out : String × String × ℚ),
      processRowCapita popMap aliasT regN row = Sum.inr out →
        ∃ p : ℚ, resolveName popMap aliasT (norm_name ⟨pyStrip row.1.data⟩) = some p ∧
          p ≠ 0 ∧ out.2.2 = parseTrack ⟨pyStrip row.2.2.data⟩ / p * 1000) ∧
    (∀ (areaMap : List (String × ℚ)) (aliasT regN : List (String × String))
       (row : String × String × String) (out : String × String × ℚ),
      processRowArea areaMap aliasT regN row = Sum.inr out →
        ∃ a : ℚ, resolveName areaMap aliasT (norm_name ⟨pyStrip row.1.data⟩) = some a ∧
          a ≠ 0 ∧ out.2.2 = parseTrack ⟨pyStrip row.2.2.data⟩ / a) ∧
    (∀ (popMap : List (String × ℚ)) (aliasT regN : List (String × String))
       (row : String × String × String) (rest : List (String × String × String)),
      resolveName popMap aliasT (norm_name ⟨pyStrip row.1.data⟩) = some 0 →
        runCapita popMap aliasT regN (row :: rest) =
          ((runCapita popMap aliasT regN rest).1,
            (⟨pyStrip row.1.data⟩ : String) :: (runCapita popMap aliasT regN rest).2)) ∧
    (∀ (areaMap : List (String × ℚ)) (aliasT regN : List (String × String))
       (row : String × String × String) (rest : List (String × String × String)),
      resolveName areaMap aliasT (norm_name ⟨pyStrip row.1.data⟩) = some 0 →
        runArea areaMap aliasT regN (row :: rest) =
          ((runArea areaMap aliasT regN rest).1,
            (⟨pyStrip row.1.data⟩ : String) :: (runArea areaMap aliasT regN rest).2)) := by
  have hcap : ∀ (popMap : List (String × ℚ)) (aliasT regN : List (String × String))
      (row : String × String × String),
      resolveName popMap aliasT (norm_name ⟨pyStrip row.1.data⟩) = some 0 →
        processRowCapita popMap aliasT regN row = Sum.inl ⟨pyStrip row.1.data⟩ := by
    intro popMap aliasT regN row hres
    simp only [processRowCapita, hres]
    simp
  have harea : ∀ (areaMap : List (String × ℚ)) (aliasT regN : List (String × String))
      (row : String × String × String),
      resolveName areaMap aliasT (norm_name ⟨pyStrip row.1.data⟩) = some 0 →
        processRowArea areaMap aliasT regN row = Sum.inl ⟨pyStrip row.1.data⟩ := by
    intro areaMap aliasT regN row hres
    simp only [processRowArea, hres]
    simp
  refine ⟨hcap, harea, ?_, ?_, ?_, ?_⟩
  · intro popMap aliasT regN row out h
    cases hres : resolveName popMap aliasT (norm_name ⟨pyStrip row.1.data⟩) with
    | none =>
      simp only [processRowCapita, hres] at h
      exact absurd h (by simp)
    | some p =>
      simp only [processRowCapita, hres] at h
      by_cases hp : p = 0
      · rw [if_pos hp] at h
        exact absurd h (by simp)
      · rw [if_neg hp] at h
        refine ⟨p, rfl, hp, ?_⟩
        have h2 := (Sum.inr.injEq _ _).mp h
        rw [← h2]
  · intro areaMap aliasT regN row out h
    cases hres : resolveName areaMap aliasT (norm_name ⟨pyStrip row.1.data⟩) with
    | none =>
      simp only [processRowArea, hres] at h
      exact absurd h (by simp)
    | some a =>
      simp only [processRowArea, hres] at h
      by_cases hp : a = 0
      · rw [if_pos hp] at h
        exact absurd h (by simp)
      · rw [if_neg hp] at h
        refine ⟨a, rfl, hp, ?_⟩
        have h2 := (Sum.inr.injEq _ _).mp h
        rw [← h2]
  · intro popMap aliasT regN row rest hres
    unfold runCapita
    rw [List.foldr_cons, hcap popMap aliasT regN row hres]
  · intro areaMap aliasT regN row rest hres
    unfold runArea
    rw [List.foldr_cons, harea areaMap aliasT regN row hres]

/-- Witness for claim C9: a matched reference value of `0` sends the row to the
diagnostics. -/
theorem claim_C9_witness :
    processRowCapita [("atlantis", (0 : ℚ))] aliasCapita isoNumericRegistry
      ("Atlantis", "008", "5") = Sum.inl "Atlantis" :=
  claim_C9_zero_divisor_skipped.1 [("atlantis", (0 : ℚ))] aliasCapita isoNumericRegistry
    ("Atlantis", "008", "5") (by decide)

/-! ### Claim C10: failed registry lookups fall back to the raw ISO field -/

/-- Claim C10: when the numeric registry lookup yields `""` for a matched row,
the row is still emitted and its `country_ISO` field carries the raw ISO value,
which need not be an alpha-3 code. -/
theorem claim_C10_raw_iso_fallback :
    (∀ (popMap : List (String × ℚ)) (aliasT regN : List (String × String))
       (cr ir tr : String) (p : ℚ),
      resolveName popMap aliasT (norm_name ⟨pyStrip cr.data⟩) = some p → p ≠ 0 →
      numeric_to_alpha3 regN ⟨pyStrip ir.data⟩ = "" →
        processRowCapita popMap aliasT regN (cr, ir, tr) =
          Sum.inr (⟨pyStrip cr.data⟩, ⟨pyStrip ir.data⟩,
            parseTrack ⟨pyStrip tr.data⟩ / p * 1000)) ∧
    (∀ (areaMap : List (String × ℚ)) (aliasT regN : List (String × String))
       (cr ir tr : String) (a : ℚ),
      resolveName areaMap aliasT (norm_name ⟨pyStrip cr.data⟩) = some a → a ≠ 0 →
      numeric_to_alpha3 regN ⟨pyStrip ir.data⟩ = "" →
        processRowArea areaMap aliasT regN (cr, ir, tr) =
          Sum.inr (⟨pyStrip cr.data⟩, ⟨pyStrip ir.data⟩,
            parseTrack ⟨pyStrip tr.data⟩ / a)) := by
  constructor
  · intro popMap aliasT regN cr ir tr p hres hp hiso
    simp only [processRowCapita, hres]
    rw [if_neg hp, hiso]
    simp
  · intro areaMap aliasT regN cr ir tr a hres ha hiso
    simp only [processRowArea, hres]
    rw [if_neg ha, hiso]
    simp

/-- Witness for claim C10: the unknown numeric code `"999"` survives into the
output row verbatim, and is not an alpha-3 code. -/
theorem claim_C10_witness :
    pyIsAlpha "999".data = false ∧
    processRowCapita [("narnia", (10 : ℚ))] aliasCapita isoNumericRegistry
      ("Narnia", "999", "12") =
      Sum.inr ("Narnia", (⟨pyStrip "999".data⟩ : String),
        parseTrack ⟨pyStrip "12".data⟩ / 10 * 1000) :=
  ⟨by decide,
    claim_C10_raw_iso_fallback.1 [("narnia", (10 : ℚ))] aliasCapita isoNumericRegistry
      "Narnia" "999" "12" 10 (by decide) (by norm_num) (by decide)⟩

end MapsAz
